import Mathlib

/-
Shallow embedding of the fast OLAP storage engine (storage.go) and
verification of its specified properties.

Go strings are modelled as lists of characters, Go maps with string keys
as functions from keys to Option values, and the (value, error) return
convention as Except.  Each sub-store (cubes, dimensions, elements with
the component hierarchy, cells) is a structure holding its map(s); the
facade methods mirror the select statement that races the configured
delay against the caller's cancellation signal, with a Boolean recording
which side of the race fired first.
-/

namespace Fast

/-- Go strings are modelled as lists of characters. -/
abbrev Name := List Char

/-- Separator character of the composite-key scheme: the string constant in the
hash function of storage.go. -/
def sep : Char := '#'

/-- Embedding of the hash function of storage.go: strings.Join of the given
parts with the separator. -/
def hash : List Name → Name
  | [] => []
  | [s] => s
  | s :: s2 :: rest => s ++ sep :: hash (s2 :: rest)

/-- Insertion into a string-keyed Go map. -/
def update (m : Name → Option α) (k : Name) (v : α) : Name → Option α :=
  fun x => if x = k then some v else m x

/-- Domain error values supplied by the external olap package, plus the
cancellation error of the context package. -/
inductive Err
  | dimensionAlreadyExists
  | dimensionNotFound
  | elementAlreadyExists
  | elementNotFound
  | componentAlreadyExists
  | componentNotFound
  | cellNotFound
  | canceled
deriving DecidableEq, Repr

/-- Cube record: identity plus an opaque payload stored verbatim. -/
structure Cube where
  name : Name
  dims : List Name
deriving DecidableEq, Repr

/-- Zero value of the Cube type, as returned by a Go map miss. -/
def zeroCube : Cube := ⟨[], []⟩

/-- Dimension record: identity plus an opaque payload stored verbatim. -/
structure Dimension where
  name : Name
  body : Int
deriving DecidableEq, Repr

/-- Element record: identified by the (dimension, name) pair, with an opaque
payload stored verbatim. -/
structure Element where
  dimension : Name
  name : Name
  body : Int
deriving DecidableEq, Repr

/-- Cell record: cube name, ordered coordinate tuple, stored value. -/
structure Cell where
  cube : Name
  elements : List Name
  value : Int
deriving DecidableEq, Repr

/-- Cell sub-store: one map from composite key to cell. -/
structure Cells where
  cells : Name → Option Cell

/-- Empty cell store, as built by newCells. -/
def emptyCells : Cells := ⟨fun _ => none⟩

/-- Embedding of cells.addCell: the coordinate tuple is joined into one token,
that token is joined with the cube name, and the map entry is overwritten. -/
def Cells.addCell (s : Cells) (cell : Cell) : Except Err Unit × Cells :=
  let h := hash cell.elements
  let h2 := hash [cell.cube, h]
  (.ok (), ⟨update s.cells h2 cell⟩)

/-- Embedding of cells.getCellByName: lookup under the same composite key. -/
def Cells.getCellByName (s : Cells) (cube : Name) (elements : List Name) :
    Except Err Cell :=
  let h := hash elements
  let h2 := hash [cube, h]
  match s.cells h2 with
  | some c => .ok c
  | none => .error .cellNotFound

/-- Cube sub-store: one map from cube name to cube. -/
structure Cubes where
  cubes : Name → Option Cube

/-- Empty cube store, as built by newCubes. -/
def emptyCubes : Cubes := ⟨fun _ => none⟩

/-- Embedding of cubes.addCube: insert or overwrite, never fails. -/
def Cubes.addCube (s : Cubes) (cube : Cube) : Except Err Unit × Cubes :=
  (.ok (), ⟨update s.cubes cube.name cube⟩)

/-- Embedding of cubes.getCubeByName: a Go map miss yields the zero value and
no error is ever returned. -/
def Cubes.getCubeByName (s : Cubes) (name : Name) : Except Err Cube :=
  .ok ((s.cubes name).getD zeroCube)

/-- Embedding of cubes.cubeExists: presence probe, never fails. -/
def Cubes.cubeExists (s : Cubes) (name : Name) : Except Err Bool :=
  .ok (s.cubes name).isSome

/-- Dimension sub-store: one map from dimension name to dimension. -/
structure Dimensions where
  dimensions : Name → Option Dimension

/-- Empty dimension store, as built by newDimensions. -/
def emptyDimensions : Dimensions := ⟨fun _ => none⟩

/-- Embedding of dimensions.addDimension: insert only, duplicate names are
rejected and leave the map untouched. -/
def Dimensions.addDimension (s : Dimensions) (dim : Dimension) :
    Except Err Unit × Dimensions :=
  match s.dimensions dim.name with
  | some _ => (.error .dimensionAlreadyExists, s)
  | none => (.ok (), ⟨update s.dimensions dim.name dim⟩)

/-- Embedding of dimensions.getDimensionByName. -/
def Dimensions.getDimensionByName (s : Dimensions) (name : Name) :
    Except Err Dimension :=
  match s.dimensions name with
  | some d => .ok d
  | none => .error .dimensionNotFound

/-- Embedding of dimensions.dimensionExists: presence probe, never fails. -/
def Dimensions.dimensionExists (s : Dimensions) (name : Name) : Except Err Bool :=
  .ok (s.dimensions name).isSome

/-- Element sub-store: the element map keyed by the composite (dimension, name)
key, and the component map from a parent key to its ordered child-key list. -/
structure Elements where
  elements : Name → Option Element
  components : Name → Option (List Name)

/-- Empty element store, as built by newElements. -/
def emptyElements : Elements := ⟨fun _ => none, fun _ => none⟩

/-- Embedding of elements.addElement: insert only under the composite key,
duplicates rejected. -/
def Elements.addElement (s : Elements) (el : Element) : Except Err Unit × Elements :=
  let h := hash [el.dimension, el.name]
  match s.elements h with
  | some _ => (.error .elementAlreadyExists, s)
  | none => (.ok (), { s with elements := update s.elements h el })

/-- Embedding of elements.getElementByName. -/
def Elements.getElementByName (s : Elements) (dim el : Name) : Except Err Element :=
  let h := hash [dim, el]
  match s.elements h with
  | some e => .ok e
  | none => .error .elementNotFound

/-- Embedding of elements.elementExists: presence probe, never fails. -/
def Elements.elementExists (s : Elements) (dim name : Name) : Except Err Bool :=
  .ok (s.elements (hash [dim, name])).isSome

/-- Embedding of elements.addComponent.  The Go code first creates an empty
child list for the parent key when absent, then scans the list for the child
key and either rejects the duplicate edge (map untouched in that case, since
the scan of a freshly created empty list finds nothing) or appends. -/
def Elements.addComponent (s : Elements) (tot el : Element) :
    Except Err Unit × Elements :=
  let ht := hash [tot.dimension, tot.name]
  let he := hash [el.dimension, el.name]
  match s.components ht with
  | none => (.ok (), { s with components := update s.components ht [he] })
  | some l =>
    if he ∈ l then (.error .componentAlreadyExists, s)
    else (.ok (), { s with components := update s.components ht (l ++ [he]) })

/-- Embedding of elements.componentExists: true iff the component map has an
entry under the composite key of the given (dimension, name) pair. -/
def Elements.componentExists (s : Elements) (dim name : Name) : Except Err Bool :=
  .ok (s.components (hash [dim, name])).isSome

/-- Embedding of elements.children: reject when componentExists is false,
otherwise collect the element records of the recorded child keys, silently
skipping keys with no element record. -/
def Elements.children (s : Elements) (dim name : Name) : Except Err (List Element) :=
  let h := hash [dim, name]
  match s.componentExists dim name with
  | .ok true => .ok (((s.components h).getD []).filterMap s.elements)
  | _ => .error .componentNotFound

/-- The storage facade: the four sub-stores plus the configured delay. -/
structure Storage where
  cubes : Cubes
  dimensions : Dimensions
  elements : Elements
  cells : Cells
  delay : Nat

/-- Embedding of NewStorage. -/
def NewStorage (delay : Nat) : Storage :=
  ⟨emptyCubes, emptyDimensions, emptyElements, emptyCells, delay⟩

/-
Each facade method runs a select statement racing time.After(delay) against
the caller's cancellation signal.  The Boolean argument canceled records
whether the cancellation signal fired before the delay elapsed: when it did,
the method returns the cancellation error without touching any sub-store.
-/

/-- Facade AddCube with the cancellation race. -/
def Storage.AddCube (s : Storage) (canceled : Bool) (cube : Cube) :
    Except Err Unit × Storage :=
  if canceled then (.error .canceled, s)
  else
    let r := s.cubes.addCube cube
    (r.1, { s with cubes := r.2 })

/-- Facade GetCubeByName with the cancellation race. -/
def Storage.GetCubeByName (s : Storage) (canceled : Bool) (name : Name) :
    Except Err Cube × Storage :=
  if canceled then (.error .canceled, s)
  else (s.cubes.getCubeByName name, s)

/-- Facade CubeExists with the cancellation race. -/
def Storage.CubeExists (s : Storage) (canceled : Bool) (name : Name) :
    Except Err Bool × Storage :=
  if canceled then (.error .canceled, s)
  else (s.cubes.cubeExists name, s)

/-- Facade AddDimension with the cancellation race. -/
def Storage.AddDimension (s : Storage) (canceled : Bool) (dim : Dimension) :
    Except Err Unit × Storage :=
  if canceled then (.error .canceled, s)
  else
    let r := s.dimensions.addDimension dim
    (r.1, { s with dimensions := r.2 })

/-- Facade GetDimensionByName with the cancellation race. -/
def Storage.GetDimensionByName (s : Storage) (canceled : Bool) (name : Name) :
    Except Err Dimension × Storage :=
  if canceled then (.error .canceled, s)
  else (s.dimensions.getDimensionByName name, s)

/-- Facade DimensionExists with the cancellation race. -/
def Storage.DimensionExists (s : Storage) (canceled : Bool) (name : Name) :
    Except Err Bool × Storage :=
  if canceled then (.error .canceled, s)
  else (s.dimensions.dimensionExists name, s)

/-- Facade AddElement with the cancellation race. -/
def Storage.AddElement (s : Storage) (canceled : Bool) (el : Element) :
    Except Err Unit × Storage :=
  if canceled then (.error .canceled, s)
  else
    let r := s.elements.addElement el
    (r.1, { s with elements := r.2 })

/-- Facade GetElementByName with the cancellation race. -/
def Storage.GetElementByName (s : Storage) (canceled : Bool) (dim el : Name) :
    Except Err Element × Storage :=
  if canceled then (.error .canceled, s)
  else (s.elements.getElementByName dim el, s)

/-- Facade ElementExists with the cancellation race. -/
def Storage.ElementExists (s : Storage) (canceled : Bool) (dim name : Name) :
    Except Err Bool × Storage :=
  if canceled then (.error .canceled, s)
  else (s.elements.elementExists dim name, s)

/-- Facade AddComponent with the cancellation race. -/
def Storage.AddComponent (s : Storage) (canceled : Bool) (tot el : Element) :
    Except Err Unit × Storage :=
  if canceled then (.error .canceled, s)
  else
    let r := s.elements.addComponent tot el
    (r.1, { s with elements := r.2 })

/-- Facade ComponentExists with the cancellation race. -/
def Storage.ComponentExists (s : Storage) (canceled : Bool) (dim name : Name) :
    Except Err Bool × Storage :=
  if canceled then (.error .canceled, s)
  else (s.elements.componentExists dim name, s)

/-- Facade Children with the cancellation race. -/
def Storage.Children (s : Storage) (canceled : Bool) (dim name : Name) :
    Except Err (List Element) × Storage :=
  if canceled then (.error .canceled, s)
  else (s.elements.children dim name, s)

/-- Facade AddCell with the cancellation race. -/
def Storage.AddCell (s : Storage) (canceled : Bool) (cell : Cell) :
    Except Err Unit × Storage :=
  if canceled then (.error .canceled, s)
  else
    let r := s.cells.addCell cell
    (r.1, { s with cells := r.2 })

/-- Facade GetCellByName with the cancellation race. -/
def Storage.GetCellByName (s : Storage) (canceled : Bool) (cube : Name)
    (elements : List Name) : Except Err Cell × Storage :=
  if canceled then (.error .canceled, s)
  else (s.cells.getCellByName cube elements, s)

/-- One request against the facade: every operation of the engine with its
arguments. -/
inductive Op
  | addCube (cube : Cube)
  | getCubeByName (name : Name)
  | cubeExists (name : Name)
  | addDimension (dim : Dimension)
  | getDimensionByName (name : Name)
  | dimensionExists (name : Name)
  | addElement (el : Element)
  | getElementByName (dim el : Name)
  | elementExists (dim name : Name)
  | addComponent (tot el : Element)
  | componentExists (dim name : Name)
  | children (dim name : Name)
  | addCell (cell : Cell)
  | getCellByName (cube : Name) (elements : List Name)

/-- Result value of an operation, covering the return types of the facade. -/
inductive ResVal
  | unit
  | cube (c : Cube)
  | dim (d : Dimension)
  | elem (e : Element)
  | elems (l : List Element)
  | cell (c : Cell)
  | bool (b : Bool)
deriving DecidableEq, Repr

/-- Dispatch one operation through the facade, threading the storage state and
wrapping the heterogeneous results. -/
def runOp (s : Storage) (canceled : Bool) : Op → Except Err ResVal × Storage
  | .addCube c =>
    let r := s.AddCube canceled c
    (r.1.map fun _ => ResVal.unit, r.2)
  | .getCubeByName n =>
    let r := s.GetCubeByName canceled n
    (r.1.map ResVal.cube, r.2)
  | .cubeExists n =>
    let r := s.CubeExists canceled n
    (r.1.map ResVal.bool, r.2)
  | .addDimension d =>
    let r := s.AddDimension canceled d
    (r.1.map fun _ => ResVal.unit, r.2)
  | .getDimensionByName n =>
    let r := s.GetDimensionByName canceled n
    (r.1.map ResVal.dim, r.2)
  | .dimensionExists n =>
    let r := s.DimensionExists canceled n
    (r.1.map ResVal.bool, r.2)
  | .addElement e =>
    let r := s.AddElement canceled e
    (r.1.map fun _ => ResVal.unit, r.2)
  | .getElementByName d e =>
    let r := s.GetElementByName canceled d e
    (r.1.map ResVal.elem, r.2)
  | .elementExists d n =>
    let r := s.ElementExists canceled d n
    (r.1.map ResVal.bool, r.2)
  | .addComponent t e =>
    let r := s.AddComponent canceled t e
    (r.1.map fun _ => ResVal.unit, r.2)
  | .componentExists d n =>
    let r := s.ComponentExists canceled d n
    (r.1.map ResVal.bool, r.2)
  | .children d n =>
    let r := s.Children canceled d n
    (r.1.map ResVal.elems, r.2)
  | .addCell c =>
    let r := s.AddCell canceled c
    (r.1.map fun _ => ResVal.unit, r.2)
  | .getCellByName c els =>
    let r := s.GetCellByName canceled c els
    (r.1.map ResVal.cell, r.2)

/-- Composite identity key of an element, as computed throughout the element
sub-store. -/
def ekey (e : Element) : Name := hash [e.dimension, e.name]

/-- Fold a sequence of edge additions under a fixed parent, requiring every
addition to succeed. -/
def Elements.addComponentsOk (s : Elements) (tot : Element) :
    List Element → Option Elements
  | [] => some s
  | c :: cs =>
    match s.addComponent tot c with
    | (.ok _, s1) => s1.addComponentsOk tot cs
    | (.error _, _) => none

/-- Replay a sequence of component-edge additions given as (parent, child)
pairs, keeping only the final store. -/
def Elements.runAdds (s : Elements) : List (Element × Element) → Elements
  | [] => s
  | pc :: rest => ((s.addComponent pc.1 pc.2).2).runAdds rest

/-- Sample element store with two registered elements, used to exercise the
hierarchy operations on concrete inputs. -/
def demoElements : Elements :=
  ⟨update (update (fun _ => none) (hash [['d'], ['a']]) ⟨['d'], ['a'], 0⟩)
      (hash [['d'], ['b']]) ⟨['d'], ['b'], 0⟩,
   fun _ => none⟩

/-- Decidable equality for the embedded result type. -/
instance exceptDecEq {ε α : Type} [DecidableEq ε] [DecidableEq α] :
    DecidableEq (Except ε α) := fun a b =>
  match a, b with
  | .ok x, .ok y =>
    if h : x = y then .isTrue (by rw [h])
    else .isFalse (by intro hh; cases hh; exact h rfl)
  | .error x, .error y =>
    if h : x = y then .isTrue (by rw [h])
    else .isFalse (by intro hh; cases hh; exact h rfl)
  | .ok _, .error _ => .isFalse (by intro hh; cases hh)
  | .error _, .ok _ => .isFalse (by intro hh; cases hh)

/-- Splitting at the first separator is unambiguous when neither left part
contains the separator. -/
theorem append_sep_inj : ∀ (a b x y : Name), sep ∉ a → sep ∉ b →
    a ++ sep :: x = b ++ sep :: y → a = b ∧ x = y := by
  intro a
  induction a with
  | nil =>
    intro b x y _ hb h
    cases b with
    | nil => simpa using h
    | cons c bs =>
      simp only [List.nil_append, List.cons_append, List.cons.injEq] at h
      simp only [List.mem_cons, not_or] at hb
      exact absurd h.1 hb.1
  | cons c as ih =>
    intro b x y ha hb h
    cases b with
    | nil =>
      simp only [List.cons_append, List.nil_append, List.cons.injEq] at h
      simp only [List.mem_cons, not_or] at ha
      exact absurd h.1.symm ha.1
    | cons d bs =>
      simp only [List.cons_append, List.cons.injEq] at h
      obtain ⟨hcd, htail⟩ := h
      simp only [List.mem_cons, not_or] at ha hb
      obtain ⟨heq, hx⟩ := ih bs x y ha.2 hb.2 htail
      exact ⟨by rw [hcd, heq], hx⟩

/-- Joining with the separator is injective on nonempty lists of
separator-free parts. -/
theorem hash_inj_sepFree : ∀ (l1 l2 : List Name), l1 ≠ [] → l2 ≠ [] →
    (∀ s ∈ l1, sep ∉ s) → (∀ s ∈ l2, sep ∉ s) → hash l1 = hash l2 → l1 = l2 := by
  intro l1
  induction l1 with
  | nil => intro l2 h1; exact absurd rfl h1
  | cons s1 t1 ih =>
    intro l2 _ h2 hf1 hf2 h
    cases l2 with
    | nil => exact absurd rfl h2
    | cons s2 t2 =>
      cases t1 with
      | nil =>
        cases t2 with
        | nil => simpa [hash] using h
        | cons u2 v2 =>
          exfalso
          simp only [hash] at h
          have hm : sep ∈ s2 ++ sep :: hash (u2 :: v2) := by simp
          rw [← h] at hm
          exact hf1 s1 (by simp) hm
      | cons u1 v1 =>
        cases t2 with
        | nil =>
          exfalso
          simp only [hash] at h
          have hm : sep ∈ s1 ++ sep :: hash (u1 :: v1) := by simp
          rw [h] at hm
          exact hf2 s2 (by simp) hm
        | cons u2 v2 =>
          simp only [hash] at h
          obtain ⟨hs, ht⟩ := append_sep_inj s1 s2 _ _
            (hf1 s1 (by simp)) (hf2 s2 (by simp)) h
          have htail := ih (u2 :: v2) (by simp) (by simp)
            (fun s hs => hf1 s (by simp [hs])) (fun s hs => hf2 s (by simp [hs])) ht
          rw [hs, htail]

/-- Joining a nonempty list of nonempty parts yields a nonempty string. -/
theorem hash_ne_nil : ∀ (l : List Name), l ≠ [] → (∀ s ∈ l, s ≠ []) →
    hash l ≠ [] := by
  intro l hl hne
  cases l with
  | nil => exact absurd rfl hl
  | cons s t =>
    cases t with
    | nil => exact hne s (by simp)
    | cons u v => simp [hash]

/-- C1 (amended).  Composite keys are injective on logical tuples provided no
component string contains the separator character and every cell coordinate is
a nonempty string: distinct (dimension, element-name) pairs get distinct
element keys, and distinct (cube, ordered coordinate tuple) pairs get distinct
cell keys. -/
theorem c1_composite_keys_injective :
    (∀ d1 n1 d2 n2 : Name, sep ∉ d1 → sep ∉ d2 →
      (d1, n1) ≠ (d2, n2) → hash [d1, n1] ≠ hash [d2, n2]) ∧
    (∀ (cu1 cu2 : Name) (t1 t2 : List Name), sep ∉ cu1 → sep ∉ cu2 →
      (∀ x ∈ t1, sep ∉ x ∧ x ≠ []) → (∀ x ∈ t2, sep ∉ x ∧ x ≠ []) →
      (cu1, t1) ≠ (cu2, t2) → hash [cu1, hash t1] ≠ hash [cu2, hash t2]) := by
  constructor
  · intro d1 n1 d2 n2 hd1 hd2 hne h
    simp only [hash] at h
    obtain ⟨hd, hn⟩ := append_sep_inj d1 d2 n1 n2 hd1 hd2 h
    exact hne (by rw [hd, hn])
  · intro cu1 cu2 t1 t2 hc1 hc2 ht1 ht2 hne h
    simp only [hash] at h
    obtain ⟨hc, ht⟩ := append_sep_inj cu1 cu2 _ _ hc1 hc2 h
    have htt : t1 = t2 := by
      cases t1 with
      | nil =>
        cases t2 with
        | nil => rfl
        | cons u v =>
          exfalso
          exact hash_ne_nil (u :: v) (by simp)
            (fun s hs => (ht2 s hs).2) (by simpa [hash] using ht.symm)
      | cons u1 v1 =>
        cases t2 with
        | nil =>
          exfalso
          exact hash_ne_nil (u1 :: v1) (by simp)
            (fun s hs => (ht1 s hs).2) (by simpa [hash] using ht)
        | cons u2 v2 =>
          exact hash_inj_sepFree (u1 :: v1) (u2 :: v2) (by simp) (by simp)
            (fun s hs => (ht1 s hs).1) (fun s hs => (ht2 s hs).1) ht
    exact hne (by rw [hc, htt])

/-- C1 counterexample.  As stated over all string contents the claim is false:
the element identities (dimension a#b, name c) and (dimension a, name b#c) are
distinct yet share one composite key, and the cell coordinate tuples [] and
[empty string] are distinct yet share one composite key. -/
theorem c1_counterexample :
    (hash [['a', '#', 'b'], ['c']] = hash [['a'], ['b', '#', 'c']] ∧
      ((['a', '#', 'b'], ['c']) : Name × Name) ≠ (['a'], ['b', '#', 'c'])) ∧
    (hash [['c'], hash ([] : List Name)] = hash [['c'], hash [([] : Name)]] ∧
      ([] : List Name) ≠ [([] : Name)]) := by
  refine ⟨⟨by decide, by decide⟩, ⟨by decide, by decide⟩⟩

/-- C1 witness: the amended injectivity applied at concrete inputs. -/
theorem c1_witness :
    hash [['a'], ['b']] ≠ hash [['a'], ['c']] ∧
    hash [['x'], hash [['a']]] ≠ hash [['y'], hash [['a']]] :=
  ⟨c1_composite_keys_injective.1 ['a'] ['b'] ['a'] ['c']
      (by decide) (by decide) (by decide),
   c1_composite_keys_injective.2 ['x'] ['y'] [['a']] [['a']]
      (by decide) (by decide) (by decide) (by decide) (by decide)⟩

/-- C2 (amended).  For a nonempty coordinate tuple the two-stage join used by
the cell store equals the single flat join of the cube name followed by the
coordinates; for the empty tuple the two stages instead produce the cube name
followed by a trailing separator, which the flat join of the cube name alone
does not. -/
theorem c2_two_stage_join (cu : Name) (t : List Name) :
    (t ≠ [] → hash [cu, hash t] = hash (cu :: t)) ∧
    hash [cu, hash ([] : List Name)] = cu ++ [sep] := by
  constructor
  · intro ht
    cases t with
    | nil => exact absurd rfl ht
    | cons x rest => rfl
  · rfl

/-- C2 counterexample.  At the empty coordinate tuple the two-stage join and
the flat join of the cube name alone disagree. -/
theorem c2_counterexample :
    hash [['c'], hash ([] : List Name)] ≠ hash [['c']] := by decide

/-- C2 witness: the two-stage and flat joins agree on a concrete nonempty
tuple. -/
theorem c2_witness :
    hash [['c'], hash [['a'], ['b']]] = hash [['c'], ['a'], ['b']] :=
  (c2_two_stage_join ['c'] [['a'], ['b']]).1 (by decide)

/-- C3 (amended).  Adding a cell and reading it back under the same cube and
tuple returns that cell; re-adding under the same key overwrites, and the read
returns the newest cell; and reading a permuted tuple distinct from the added
one fails with the cell-not-found error, provided no coordinate contains the
separator character. -/
theorem c3_cell_roundtrip :
    (∀ (s : Cells) (cell : Cell),
      (s.addCell cell).2.getCellByName cell.cube cell.elements = .ok cell) ∧
    (∀ (s : Cells) (c1 c2 : Cell), c1.cube = c2.cube → c1.elements = c2.elements →
      ((s.addCell c1).2.addCell c2).2.getCellByName c1.cube c1.elements = .ok c2) ∧
    (∀ (x : Name) (t tp : List Name) (v : Int), (∀ a ∈ t, sep ∉ a) →
      tp.Perm t → tp ≠ t →
      (emptyCells.addCell ⟨x, t, v⟩).2.getCellByName x tp = .error .cellNotFound) := by
  refine ⟨?_, ?_, ?_⟩
  · intro s cell
    simp [Cells.addCell, Cells.getCellByName, update]
  · intro s c1 c2 hcu hel
    rw [hcu, hel]
    simp [Cells.addCell, Cells.getCellByName, update]
  · intro x t tp v hsf hperm hne
    have htne : t ≠ [] := by
      rintro rfl
      exact hne hperm.eq_nil
    have htpne : tp ≠ [] := by
      intro h
      rw [h] at hperm
      exact hne (h.trans hperm.symm.eq_nil.symm)
    have hsf' : ∀ a ∈ tp, sep ∉ a := fun a ha => hsf a (hperm.subset ha)
    have hkey : hash [x, hash tp] ≠ hash [x, hash t] := by
      simp only [hash]
      intro h
      have h2 := List.append_cancel_left h
      have h3 : hash tp = hash t := by injection h2
      exact hne (hash_inj_sepFree tp t htpne htne hsf' hsf h3)
    simp only [Cells.addCell, Cells.getCellByName, update, emptyCells]
    rw [if_neg hkey]

/-- C3 counterexample.  With a separator inside a coordinate, a permuted
tuple distinct from the added tuple reads back the stored cell instead of
failing with the cell-not-found error. -/
theorem c3_counterexample :
    ([['a', '#', 'b'], ['a'], ['b']] : List Name).Perm
      [['a'], ['b'], ['a', '#', 'b']] ∧
    ([['a', '#', 'b'], ['a'], ['b']] : List Name) ≠ [['a'], ['b'], ['a', '#', 'b']] ∧
    (emptyCells.addCell ⟨['c'], [['a'], ['b'], ['a', '#', 'b']], 1⟩).2.getCellByName
        ['c'] [['a', '#', 'b'], ['a'], ['b']]
      = .ok ⟨['c'], [['a'], ['b'], ['a', '#', 'b']], 1⟩ := by
  refine ⟨by decide, by decide, by decide⟩

/-- C3 witness: the roundtrip, overwrite and permuted-miss behavior applied at
concrete inputs. -/
theorem c3_witness :
    (emptyCells.addCell ⟨['c'], [['a']], 7⟩).2.getCellByName ['c'] [['a']]
        = .ok ⟨['c'], [['a']], 7⟩ ∧
    ((emptyCells.addCell ⟨['c'], [['a']], 7⟩).2.addCell ⟨['c'], [['a']], 9⟩).2.getCellByName
        ['c'] [['a']] = .ok ⟨['c'], [['a']], 9⟩ ∧
    (emptyCells.addCell ⟨['c'], [['a'], ['b']], 5⟩).2.getCellByName ['c'] [['b'], ['a']]
        = .error .cellNotFound :=
  ⟨c3_cell_roundtrip.1 emptyCells ⟨['c'], [['a']], 7⟩,
   c3_cell_roundtrip.2.1 emptyCells ⟨['c'], [['a']], 7⟩ ⟨['c'], [['a']], 9⟩ rfl rfl,
   c3_cell_roundtrip.2.2 ['c'] [['a'], ['b']] [['b'], ['a']] 5
      (by decide) (by decide) (by decide)⟩

/-- Edge addition under a parent with no recorded child list creates the
singleton list. -/
theorem addComponent_none (s : Elements) (tot el : Element)
    (h : s.components (hash [tot.dimension, tot.name]) = none) :
    s.addComponent tot el = (.ok (), { s with components := update s.components (hash [tot.dimension, tot.name]) [hash [el.dimension, el.name]] }) := by
  simp only [Elements.addComponent]
  rw [h]

/-- Edge addition whose child key is already recorded fails and leaves the
store untouched. -/
theorem addComponent_dup (s : Elements) (tot el : Element) (l : List Name)
    (h : s.components (hash [tot.dimension, tot.name]) = some l)
    (hm : hash [el.dimension, el.name] ∈ l) :
    s.addComponent tot el = (.error .componentAlreadyExists, s) := by
  simp only [Elements.addComponent]
  rw [h]
  exact if_pos hm

/-- Edge addition with a recorded list not containing the child key appends
the child key. -/
theorem addComponent_append (s : Elements) (tot el : Element) (l : List Name)
    (h : s.components (hash [tot.dimension, tot.name]) = some l)
    (hm : hash [el.dimension, el.name] ∉ l) :
    s.addComponent tot el = (.ok (), { s with components := update s.components (hash [tot.dimension, tot.name]) (l ++ [hash [el.dimension, el.name]]) }) := by
  simp only [Elements.addComponent]
  rw [h]
  exact if_neg hm

/-- Collecting element records over registered keys returns the elements
themselves. -/
theorem filterMap_ekey_reg (m : Name → Option Element) :
    ∀ (cs : List Element), (∀ c ∈ cs, m (ekey c) = some c) →
    (cs.map ekey).filterMap m = cs := by
  intro cs
  induction cs with
  | nil => intro _; rfl
  | cons c cs ih =>
    intro h
    simp only [List.map_cons, List.filterMap_cons, h c (by simp)]
    rw [ih (fun x hx => h x (by simp [hx]))]

/-- Running a sequence of successful edge additions under one parent appends
the child keys to the parent's list in order and leaves the element map
untouched. -/
theorem addComponentsOk_spec (p : Element) :
    ∀ (cs : List Element) (s : Elements) (l : List Name),
      s.components (ekey p) = some l →
      (cs.map ekey).Nodup →
      (∀ c ∈ cs, ekey c ∉ l) →
      ∃ sF, s.addComponentsOk p cs = some sF ∧
        sF.components (ekey p) = some (l ++ cs.map ekey) ∧
        sF.elements = s.elements := by
  intro cs
  induction cs with
  | nil =>
    intro s l hl _ _
    exact ⟨s, rfl, by simp [hl], rfl⟩
  | cons c cs ih =>
    intro s l hl hnd hdisj
    have hstep : s.addComponent p c =
        (.ok (), { s with components := update s.components (ekey p) (l ++ [ekey c]) }) :=
      addComponent_append s p c l hl (hdisj c (by simp))
    have h1 : ({ s with components := update s.components (ekey p) (l ++ [ekey c]) }
        : Elements).components (ekey p) = some (l ++ [ekey c]) := by
      simp [update]
    have hnd' : (cs.map ekey).Nodup := (List.nodup_cons.mp (by simpa using hnd)).2
    have hdisj' : ∀ x ∈ cs, ekey x ∉ l ++ [ekey c] := by
      intro x hx
      simp only [List.mem_append, List.mem_singleton]
      rintro (hm | hm)
      · exact hdisj x (by simp [hx]) hm
      · have hmem : ekey x ∈ cs.map ekey := List.mem_map_of_mem ekey hx
        rw [hm] at hmem
        exact (List.nodup_cons.mp (by simpa using hnd)).1 hmem
    obtain ⟨sF, hrun, hcomp, helems⟩ :=
      ih { s with components := update s.components (ekey p) (l ++ [ekey c]) }
        (l ++ [ekey c]) h1 hnd' hdisj'
    refine ⟨sF, ?_, ?_, ?_⟩
    · simp only [Elements.addComponentsOk, hstep]
      exact hrun
    · rw [hcomp]
      simp
    · rw [helems]

/-- C4 (amended).  For a parent with no prior child list and a duplicate-free
sequence of children each previously registered in the element map under its
own key, running the edge additions succeeds, a subsequent Children call
returns exactly the added children in the order added, and re-adding any of
those edges fails with the duplicate-component error without changing the
store. -/
theorem c4_children_in_order (s : Elements) (p : Element) (cs : List Element)
    (hne : cs ≠ [])
    (hnd : cs.Nodup)
    (hreg : ∀ c ∈ cs, s.elements (ekey c) = some c)
    (hfresh : s.components (ekey p) = none) :
    ∃ sF, s.addComponentsOk p cs = some sF ∧
      sF.children p.dimension p.name = .ok cs ∧
      ∀ c ∈ cs, sF.addComponent p c = (.error .componentAlreadyExists, sF) := by
  have hmapnd : (cs.map ekey).Nodup := by
    refine List.Nodup.map_on ?_ hnd
    intro x hx y hy hxy
    have hsome : some x = some y := by
      rw [← hreg x hx, hxy, hreg y hy]
    exact Option.some.inj hsome
  cases cs with
  | nil => exact absurd rfl hne
  | cons c0 rest =>
    have hstep : s.addComponent p c0 =
        (.ok (), { s with components := update s.components (ekey p) [ekey c0] }) :=
      addComponent_none s p c0 hfresh
    have h1 : ({ s with components := update s.components (ekey p) [ekey c0] }
        : Elements).components (ekey p) = some [ekey c0] := by
      simp [update]
    have hnd' : (rest.map ekey).Nodup := (List.nodup_cons.mp (by simpa using hmapnd)).2
    have hdisj' : ∀ x ∈ rest, ekey x ∉ [ekey c0] := by
      intro x hx
      simp only [List.mem_singleton]
      intro hm
      have hmem : ekey x ∈ rest.map ekey := List.mem_map_of_mem ekey hx
      rw [hm] at hmem
      exact (List.nodup_cons.mp (by simpa using hmapnd)).1 hmem
    obtain ⟨sF, hrun, hcomp, helems⟩ :=
      addComponentsOk_spec p rest
        { s with components := update s.components (ekey p) [ekey c0] }
        [ekey c0] h1 hnd' hdisj'
    have hcomp' : sF.components (ekey p) = some ((c0 :: rest).map ekey) := by
      rw [hcomp]
      simp
    have helems' : sF.elements = s.elements := helems
    refine ⟨sF, ?_, ?_, ?_⟩
    · simp only [Elements.addComponentsOk, hstep]
      exact hrun
    · simp only [Elements.children, Elements.componentExists]
      have hcompk : sF.components (hash [p.dimension, p.name])
          = some ((c0 :: rest).map ekey) := hcomp'
      rw [hcompk]
      simp only [Option.isSome_some, Option.getD_some]
      rw [helems']
      rw [filterMap_ekey_reg s.elements (c0 :: rest) hreg]
    · intro c hc
      exact addComponent_dup sF p c ((c0 :: rest).map ekey) hcomp'
        (List.mem_map_of_mem ekey hc)

/-- C4 counterexample.  As stated the claim is false: an edge to a child never
registered through the element-add operation is accepted, yet the Children
call silently omits that child from its successful result. -/
theorem c4_counterexample :
    (emptyElements.addComponent ⟨['q'], ['r'], 0⟩ ⟨['q'], ['s'], 0⟩).1 = .ok () ∧
    (emptyElements.addComponent ⟨['q'], ['r'], 0⟩ ⟨['q'], ['s'], 0⟩).2.children
        ['q'] ['r'] = .ok [] ∧
    (⟨['q'], ['s'], 0⟩ : Element) ∉ ([] : List Element) := by
  refine ⟨by decide, by decide, by decide⟩

/-- C4 witness: the amended hierarchy roundtrip applied to two concrete
registered children. -/
theorem c4_witness :
    ∃ sF, demoElements.addComponentsOk ⟨['d'], ['p'], 0⟩
          [⟨['d'], ['a'], 0⟩, ⟨['d'], ['b'], 0⟩] = some sF ∧
        sF.children ['d'] ['p'] = .ok [⟨['d'], ['a'], 0⟩, ⟨['d'], ['b'], 0⟩] := by
  obtain ⟨sF, h1, h2, _⟩ := c4_children_in_order demoElements ⟨['d'], ['p'], 0⟩
    [⟨['d'], ['a'], 0⟩, ⟨['d'], ['b'], 0⟩] (by decide) (by decide) (by decide) (by decide)
  exact ⟨sF, h1, h2⟩

/-- C5.  Under the simulated-latency policy, when the cancellation signal
fires before the configured delay elapses, every operation of the engine
returns the cancellation error and leaves the storage state completely
unchanged: no write is applied, even partially. -/
theorem c5_cancel_leaves_state_unchanged (s : Storage) (op : Op) :
    runOp s true op = (.error .canceled, s) := by
  cases op <;> rfl

/-- Dimension insert into a store without the name succeeds. -/
theorem addDimension_new (s : Dimensions) (d : Dimension)
    (h : s.dimensions d.name = none) :
    s.addDimension d = (.ok (), ⟨update s.dimensions d.name d⟩) := by
  simp only [Dimensions.addDimension]
  rw [h]

/-- Dimension insert over an occupied name fails and leaves the store
untouched. -/
theorem addDimension_dup (s : Dimensions) (d d' : Dimension)
    (h : s.dimensions d.name = some d') :
    s.addDimension d = (.error .dimensionAlreadyExists, s) := by
  simp only [Dimensions.addDimension]
  rw [h]

/-- Dimension lookup over a stored entry returns it. -/
theorem getDimensionByName_some (s : Dimensions) (n : Name) (d : Dimension)
    (h : s.dimensions n = some d) : s.getDimensionByName n = .ok d := by
  simp only [Dimensions.getDimensionByName]
  rw [h]

/-- C6.  Adding the same dimension twice to a store that did not contain its
name succeeds the first time, fails the second time with the duplicate error,
leaves the store exactly as after the first add, and the first value stays
retrievable unchanged. -/
theorem c6_dimension_duplicate_insert (s : Dimensions) (d : Dimension)
    (h : s.dimensions d.name = none) :
    (s.addDimension d).1 = .ok () ∧
    ((s.addDimension d).2.addDimension d).1 = .error .dimensionAlreadyExists ∧
    ((s.addDimension d).2.addDimension d).2 = (s.addDimension d).2 ∧
    (s.addDimension d).2.getDimensionByName d.name = .ok d := by
  have h1 := addDimension_new s d h
  have hlook : (s.addDimension d).2.dimensions d.name = some d := by
    rw [h1]
    simp [update]
  refine ⟨by rw [h1], ?_, ?_, getDimensionByName_some _ _ _ hlook⟩
  · rw [addDimension_dup _ d d hlook]
  · rw [addDimension_dup _ d d hlook]

/-- C6 witness: the double insert behavior at a concrete dimension. -/
theorem c6_witness :
    (emptyDimensions.addDimension ⟨['r'], 3⟩).1 = .ok () ∧
    ((emptyDimensions.addDimension ⟨['r'], 3⟩).2.addDimension ⟨['r'], 3⟩).1
        = .error .dimensionAlreadyExists ∧
    ((emptyDimensions.addDimension ⟨['r'], 3⟩).2.addDimension ⟨['r'], 3⟩).2
        = (emptyDimensions.addDimension ⟨['r'], 3⟩).2 ∧
    (emptyDimensions.addDimension ⟨['r'], 3⟩).2.getDimensionByName ['r']
        = .ok ⟨['r'], 3⟩ :=
  c6_dimension_duplicate_insert emptyDimensions ⟨['r'], 3⟩ rfl

/-- C8.  The edge-add operation performs no referential check: an edge to a
child never registered through the element-add operation is accepted, and the
subsequent Children call succeeds while silently omitting that child, so the
skip branch of Children is reachable without any element ever being removed. -/
theorem c8_no_referential_check :
    emptyElements.elements (ekey ⟨['d'], ['x'], 0⟩) = none ∧
    (emptyElements.addComponent ⟨['d'], ['p'], 0⟩ ⟨['d'], ['x'], 0⟩).1 = .ok () ∧
    (emptyElements.addComponent ⟨['d'], ['p'], 0⟩ ⟨['d'], ['x'], 0⟩).2.children
        ['d'] ['p'] = .ok [] ∧
    (⟨['d'], ['x'], 0⟩ : Element) ∉ ([] : List Element) := by
  refine ⟨by decide, by decide, by decide, by decide⟩

/-- C9.  The cube lookup never fails: an absent name yields the zero-value
cube with no error; the existence probe reports false exactly on absence; and
a stored cube, even one equal to the zero value, makes the probe report
true. -/
theorem c9_cube_lookup_total (s : Cubes) (n : Name) (c : Cube) :
    (∃ v, s.getCubeByName n = .ok v) ∧
    (s.cubes n = none → s.getCubeByName n = .ok zeroCube ∧ s.cubeExists n = .ok false) ∧
    (s.cubeExists n = .ok false ↔ s.cubes n = none) ∧
    (s.addCube c).2.cubeExists c.name = .ok true := by
  refine ⟨⟨(s.cubes n).getD zeroCube, rfl⟩, ?_, ?_, ?_⟩
  · intro h
    exact ⟨by simp [Cubes.getCubeByName, h], by simp [Cubes.cubeExists, h]⟩
  · cases hc : s.cubes n with
    | none => simp [Cubes.cubeExists, hc]
    | some v => simp [Cubes.cubeExists, hc]
  · simp [Cubes.addCube, Cubes.cubeExists, update]

/-- C9 witness: the lookup and probe behavior at concrete names. -/
theorem c9_witness :
    emptyCubes.getCubeByName ['a'] = .ok zeroCube ∧
    emptyCubes.cubeExists ['a'] = .ok false ∧
    (emptyCubes.addCube ⟨['s'], []⟩).2.cubeExists ['s'] = .ok true :=
  ⟨((c9_cube_lookup_total emptyCubes ['a'] ⟨['s'], []⟩).2.1 rfl).1,
   ((c9_cube_lookup_total emptyCubes ['a'] ⟨['s'], []⟩).2.1 rfl).2,
   (c9_cube_lookup_total emptyCubes ['a'] ⟨['s'], []⟩).2.2.2⟩

/-- Composite keys of (dimension, name) pairs determine the pair when the
dimension parts are separator-free. -/
theorem hash_pair_inj (d1 n1 d2 n2 : Name) (hd1 : sep ∉ d1) (hd2 : sep ∉ d2)
    (h : hash [d1, n1] = hash [d2, n2]) : d1 = d2 ∧ n1 = n2 := by
  simp only [hash] at h
  exact append_sep_inj d1 d2 n1 n2 hd1 hd2 h

/-- One edge addition never discards a recorded child list. -/
theorem addComponent_components_isSome (s : Elements) (tot el : Element) (k : Name)
    (h : (s.components k).isSome) :
    (((s.addComponent tot el).2).components k).isSome := by
  cases hc : s.components (hash [tot.dimension, tot.name]) with
  | none =>
    rw [addComponent_none s tot el hc]
    simp only [update]
    by_cases hk : k = hash [tot.dimension, tot.name]
    · simp [hk]
    · simp [hk, h]
  | some l =>
    by_cases hm : hash [el.dimension, el.name] ∈ l
    · rw [addComponent_dup s tot el l hc hm]
      exact h
    · rw [addComponent_append s tot el l hc hm]
      simp only [update]
      by_cases hk : k = hash [tot.dimension, tot.name]
      · simp [hk]
      · simp [hk, h]

/-- After one edge addition, the parent always has a recorded child list. -/
theorem addComponent_parent_isSome (s : Elements) (tot el : Element) :
    (((s.addComponent tot el).2).components (hash [tot.dimension, tot.name])).isSome := by
  cases hc : s.components (hash [tot.dimension, tot.name]) with
  | none =>
    rw [addComponent_none s tot el hc]
    simp [update]
  | some l =>
    by_cases hm : hash [el.dimension, el.name] ∈ l
    · rw [addComponent_dup s tot el l hc hm]
      simp [hc]
    · rw [addComponent_append s tot el l hc hm]
      simp [update]

/-- One edge addition leaves the child lists of other parent keys unchanged. -/
theorem addComponent_components_other (s : Elements) (tot el : Element) (k : Name)
    (hk : k ≠ hash [tot.dimension, tot.name]) :
    ((s.addComponent tot el).2).components k = s.components k := by
  cases hc : s.components (hash [tot.dimension, tot.name]) with
  | none =>
    rw [addComponent_none s tot el hc]
    simp [update, hk]
  | some l =>
    by_cases hm : hash [el.dimension, el.name] ∈ l
    · rw [addComponent_dup s tot el l hc hm]
    · rw [addComponent_append s tot el l hc hm]
      simp [update, hk]

/-- Replaying edge additions never discards a recorded child list. -/
theorem runAdds_isSome (k : Name) :
    ∀ (ops : List (Element × Element)) (s : Elements),
      (s.components k).isSome → ((s.runAdds ops).components k).isSome := by
  intro ops
  induction ops with
  | nil => intro s h; exact h
  | cons pc rest ih =>
    intro s h
    exact ih _ (addComponent_components_isSome s pc.1 pc.2 k h)

/-- Replaying edge additions touching only other parent keys leaves a child
list unchanged. -/
theorem runAdds_components_other :
    ∀ (ops : List (Element × Element)) (s : Elements) (k : Name),
      (∀ pc ∈ ops, k ≠ hash [(pc : Element × Element).1.dimension, pc.1.name]) →
      (s.runAdds ops).components k = s.components k := by
  intro ops
  induction ops with
  | nil => intro s k _; rfl
  | cons pc rest ih =>
    intro s k hk
    have h1 := addComponent_components_other s pc.1 pc.2 k (hk pc (by simp))
    have h2 := ih ((s.addComponent pc.1 pc.2).2) k (fun x hx => hk x (by simp [hx]))
    exact h2.trans h1

/-- After replaying edge additions among which some edge used the given
parent key, that parent has a recorded child list. -/
theorem runAdds_parent_isSome :
    ∀ (ops : List (Element × Element)) (s : Elements) (k : Name),
      (∃ pc ∈ ops, hash [(pc : Element × Element).1.dimension, pc.1.name] = k) →
      ((s.runAdds ops).components k).isSome := by
  intro ops
  induction ops with
  | nil =>
    rintro s k ⟨pc, hmem, _⟩
    simp at hmem
  | cons pc0 rest ih =>
    rintro s k ⟨pc, hmem, hkey⟩
    rcases List.mem_cons.mp hmem with h | h
    · subst h
      exact runAdds_isSome k rest _ (hkey ▸ addComponent_parent_isSome s pc.1 pc.2)
    · exact ih _ k ⟨pc, h, hkey⟩

/-- The Children operation fails exactly on parents with no recorded child
list: the no-entry case. -/
theorem children_none (s : Elements) (dim name : Name)
    (h : s.components (hash [dim, name]) = none) :
    s.children dim name = .error .componentNotFound := by
  simp only [Elements.children, Elements.componentExists]
  rw [h]
  rfl

/-- The Children operation on a parent with a recorded child list collects the
element records of the recorded keys. -/
theorem children_some (s : Elements) (dim name : Name) (l : List Name)
    (h : s.components (hash [dim, name]) = some l) :
    s.children dim name = .ok (l.filterMap s.elements) := by
  simp only [Elements.children, Elements.componentExists]
  rw [h]
  rfl

/-- C7 (amended).  Starting from the empty store and replaying any sequence of
edge additions, an identity pair that was never the parent of any attempted
edge gets the component-not-found error from Children, provided no dimension
name in play contains the separator character; and conversely, once some edge
addition used a pair as parent, Children on that pair succeeds and returns
the recorded child element records. -/
theorem c7_children_not_found :
    (∀ (ops : List (Element × Element)) (q : Element),
      sep ∉ q.dimension →
      (∀ pc ∈ ops, sep ∉ (pc : Element × Element).1.dimension) →
      (∀ pc ∈ ops, ((pc : Element × Element).1.dimension, pc.1.name) ≠ (q.dimension, q.name)) →
      (emptyElements.runAdds ops).children q.dimension q.name
        = .error .componentNotFound) ∧
    (∀ (ops : List (Element × Element)) (s : Elements) (q : Element),
      (∃ pc ∈ ops, ((pc : Element × Element).1.dimension, pc.1.name) = (q.dimension, q.name)) →
      ∃ l, (s.runAdds ops).children q.dimension q.name = .ok l) := by
  constructor
  · intro ops q hqd hsf hne
    have hkeys : ∀ pc ∈ ops,
        hash [q.dimension, q.name] ≠ hash [(pc : Element × Element).1.dimension, pc.1.name] := by
      intro pc hpc h
      obtain ⟨h1, h2⟩ := hash_pair_inj q.dimension q.name _ _ hqd (hsf pc hpc) h
      exact hne pc hpc (by rw [h1, h2])
    have hcomp : (emptyElements.runAdds ops).components (hash [q.dimension, q.name])
        = none := by
      rw [runAdds_components_other ops emptyElements _ hkeys]
      rfl
    exact children_none _ _ _ hcomp
  · rintro ops s q ⟨pc, hmem, heq⟩
    obtain ⟨hd, hn⟩ := Prod.mk.injEq _ _ _ _ ▸ heq
    have hsome := runAdds_parent_isSome ops s (hash [q.dimension, q.name])
      ⟨pc, hmem, by rw [hd, hn]⟩
    obtain ⟨l, hl⟩ := Option.isSome_iff_exists.mp hsome
    exact ⟨l.filterMap (s.runAdds ops).elements, children_some _ _ _ l hl⟩

/-- C7 counterexample.  As stated over all string contents the claim is false:
the pair (dimension u, name v#w) was never a parent, yet after an edge under
the distinct parent (dimension u#v, name w) its Children call succeeds
instead of failing with the component-not-found error. -/
theorem c7_counterexample :
    ((['u'], ['v', '#', 'w']) : Name × Name) ≠ (['u', '#', 'v'], ['w']) ∧
    (emptyElements.runAdds [(⟨['u', '#', 'v'], ['w'], 0⟩, ⟨['u'], ['z'], 0⟩)]).children
        ['u'] ['v', '#', 'w'] = .ok [] := by
  refine ⟨by decide, by decide⟩

/-- C7 witness: the not-found and found cases at a concrete trace. -/
theorem c7_witness :
    (emptyElements.runAdds [(⟨['d'], ['p'], 0⟩, ⟨['d'], ['c'], 0⟩)]).children ['d'] ['q']
        = .error .componentNotFound ∧
    ∃ l, (emptyElements.runAdds [(⟨['d'], ['p'], 0⟩, ⟨['d'], ['c'], 0⟩)]).children
        ['d'] ['p'] = .ok l :=
  ⟨c7_children_not_found.1 [(⟨['d'], ['p'], 0⟩, ⟨['d'], ['c'], 0⟩)] ⟨['d'], ['q'], 0⟩
      (by decide) (by decide) (by decide),
   c7_children_not_found.2 [(⟨['d'], ['p'], 0⟩, ⟨['d'], ['c'], 0⟩)] emptyElements
      ⟨['d'], ['p'], 0⟩
      ⟨(⟨['d'], ['p'], 0⟩, ⟨['d'], ['c'], 0⟩), by decide, by decide⟩⟩

/-- C10 (amended).  Starting from the empty store and replaying any edge
additions, the component-existence probe answers true exactly for the pairs
that have been the parent of at least one edge addition, provided no dimension
name in play contains the separator character; the probe itself never fails by
construction. -/
theorem c10_component_exists_iff :
    ∀ (ops : List (Element × Element)) (dim name : Name),
      sep ∉ dim →
      (∀ pc ∈ ops, sep ∉ (pc : Element × Element).1.dimension) →
      ((emptyElements.runAdds ops).componentExists dim name = .ok true ↔
        ∃ pc ∈ ops, (pc : Element × Element).1.dimension = dim ∧ pc.1.name = name) := by
  intro ops dim name hd hsf
  constructor
  · intro h
    by_contra hne
    push_neg at hne
    have hkeys : ∀ pc ∈ ops,
        hash [dim, name] ≠ hash [(pc : Element × Element).1.dimension, pc.1.name] := by
      intro pc hpc hh
      obtain ⟨h1, h2⟩ := hash_pair_inj dim name _ _ hd (hsf pc hpc) hh
      exact hne pc hpc h1.symm h2.symm
    have hcomp : (emptyElements.runAdds ops).components (hash [dim, name]) = none := by
      rw [runAdds_components_other ops emptyElements _ hkeys]
      rfl
    simp only [Elements.componentExists] at h
    rw [hcomp] at h
    simp at h
  · rintro ⟨pc, hmem, hdim, hname⟩
    have hsome := runAdds_parent_isSome ops emptyElements (hash [dim, name])
      ⟨pc, hmem, by rw [hdim, hname]⟩
    simp [Elements.componentExists, hsome]

/-- C10 counterexample.  As stated over all string contents the claim is
false: the pair (dimension x, name y#z) was never used as a hierarchy parent,
yet after an edge under the distinct parent (dimension x#y, name z) the
existence probe answers true for it. -/
theorem c10_counterexample :
    ((['x'], ['y', '#', 'z']) : Name × Name) ≠ (['x', '#', 'y'], ['z']) ∧
    (emptyElements.runAdds [(⟨['x', '#', 'y'], ['z'], 0⟩, ⟨['x'], ['w'], 0⟩)]).componentExists
        ['x'] ['y', '#', 'z'] = .ok true := by
  refine ⟨by decide, by decide⟩

/-- C10 witness: the probe is true for a concrete used parent and not true for
a concrete unused pair. -/
theorem c10_witness :
    (emptyElements.runAdds [(⟨['d'], ['p'], 0⟩, ⟨['d'], ['c'], 0⟩)]).componentExists
        ['d'] ['p'] = .ok true ∧
    (emptyElements.runAdds [(⟨['d'], ['p'], 0⟩, ⟨['d'], ['c'], 0⟩)]).componentExists
        ['d'] ['q'] ≠ .ok true := by
  constructor
  · exact (c10_component_exists_iff [(⟨['d'], ['p'], 0⟩, ⟨['d'], ['c'], 0⟩)] ['d'] ['p']
      (by decide) (by decide)).mpr
      ⟨(⟨['d'], ['p'], 0⟩, ⟨['d'], ['c'], 0⟩), by decide, rfl, rfl⟩
  · intro h
    obtain ⟨pc, hmem, _, hn⟩ := (c10_component_exists_iff
      [(⟨['d'], ['p'], 0⟩, ⟨['d'], ['c'], 0⟩)] ['d'] ['q']
      (by decide) (by decide)).mp h
    simp only [List.mem_singleton] at hmem
    rw [hmem] at hn
    exact absurd hn (by decide)

end Fast
